import Mathlib

/-!
Verification development for the per-name auction record and its mutation
log (hsd, lib/covenants/auction.js).

Byte streams are shallowly embedded as lists of naturals; every writer is a
function to a byte list and every reader is a function from a byte list to
an optional value paired with the remaining bytes (decode failures are
modelled as a result of none).  The binary codec primitives, the Outpoint
type, the chain-parameter constants and the undo-replay driver are external
collaborators of the file under verification; they are modelled from the
spec where noted below.  Everything else is translated directly from
lib/covenants/auction.js.
-/

namespace HSD

/-! ## Binary codec primitives (bufio).
Modelled from the spec: the generic binary read/write codec is an external
collaborator providing readU8/writeU8, readU32/writeU32, readU64/writeU64,
length-prefixed byte strings (varint length followed by the raw bytes) and
size estimation for varlen payloads.  Multi-byte integers are written
little-endian. -/

def writeU8 (n : Nat) : List Nat := [n % 256]

def writeU16 (n : Nat) : List Nat := [n % 256, n / 256 % 256]

def writeU32 (n : Nat) : List Nat :=
  [n % 256, n / 256 % 256, n / 65536 % 256, n / 16777216 % 256]

def writeU64 (n : Nat) : List Nat :=
  [n % 256, n / 256 % 256, n / 65536 % 256, n / 16777216 % 256,
   n / 4294967296 % 256, n / 1099511627776 % 256,
   n / 281474976710656 % 256, n / 72057594037927936 % 256]

def readU8 : List Nat → Option (Nat × List Nat)
  | [] => none
  | b :: r => some (b, r)

def readU16 : List Nat → Option (Nat × List Nat)
  | b0 :: b1 :: r => some (b0 + 256 * b1, r)
  | _ => none

def readU32 : List Nat → Option (Nat × List Nat)
  | b0 :: b1 :: b2 :: b3 :: r =>
      some (b0 + 256 * b1 + 65536 * b2 + 16777216 * b3, r)
  | _ => none

def readU64 : List Nat → Option (Nat × List Nat)
  | b0 :: b1 :: b2 :: b3 :: b4 :: b5 :: b6 :: b7 :: r =>
      some (b0 + 256 * b1 + 65536 * b2 + 16777216 * b3
        + 4294967296 * b4 + 1099511627776 * b5
        + 281474976710656 * b6 + 72057594037927936 * b7, r)
  | _ => none

def readBytesN (n : Nat) (bs : List Nat) : Option (List Nat × List Nat) :=
  if n ≤ bs.length then some (bs.take n, bs.drop n) else none

def writeVarint (n : Nat) : List Nat :=
  if n < 253 then [n]
  else if n ≤ 65535 then 253 :: writeU16 n
  else if n ≤ 4294967295 then 254 :: writeU32 n
  else 255 :: writeU64 n

def readVarint : List Nat → Option (Nat × List Nat)
  | [] => none
  | b :: r =>
      if b = 253 then readU16 r
      else if b = 254 then readU32 r
      else if b = 255 then readU64 r
      else some (b, r)

def writeVarBytes (d : List Nat) : List Nat := writeVarint d.length ++ d

def readVarBytes (bs : List Nat) : Option (List Nat × List Nat) := do
  let (n, r) ← readVarint bs
  readBytesN n r

def sizeVarint (n : Nat) : Nat :=
  if n < 253 then 1 else if n ≤ 65535 then 3 else if n ≤ 4294967295 then 5 else 9

def sizeVarlen (n : Nat) : Nat := sizeVarint n + n

/-! ## Outpoint.
Modelled from the spec: the transaction-output reference is an external
collaborator with a distinguished null value, an isNull predicate and a
36-byte fixed encoding (32-byte transaction id followed by a 32-bit output
index). -/

structure Outpoint where
  hash : List Nat
  index : Nat
deriving DecidableEq, Repr

def ZERO_HASH : List Nat := List.replicate 32 0

def Outpoint.nullOutpoint : Outpoint := ⟨ZERO_HASH, 4294967295⟩

def Outpoint.isNull (o : Outpoint) : Bool := decide (o = Outpoint.nullOutpoint)

def Outpoint.toBytes (o : Outpoint) : List Nat := o.hash ++ writeU32 o.index

def Outpoint.fromBytes (bs : List Nat) : Option (Outpoint × List Nat) := do
  let (h, r) ← readBytesN 32 bs
  let (i, r') ← readU32 r
  pure (⟨h, i⟩, r')

/-! ## Auction record fields.
Translated from the Auction class of lib/covenants/auction.js.  The
persisted fields plus nameHash form this structure; the transient ops and
undo lists live in the companion structure AuctionObj below, making the
persisted-versus-transient boundary explicit. -/

structure Auction where
  name : List Nat
  nameHash : List Nat
  owner : Outpoint
  value : Nat
  revoke : Outpoint
  data : Option (List Nat)
  height : Nat
  renewal : Nat
  claimed : Bool
deriving DecidableEq, Repr

/-- The freshly constructed record: empty name, zero hash, null owner and
revoke, no data, zero heights, unclaimed. -/
def Auction.new : Auction :=
  ⟨[], ZERO_HASH, Outpoint.nullOutpoint, 0, Outpoint.nullOutpoint, none, 0, 0, false⟩

/-- Auction.setNull from the source: reset every field except name and
nameHash. -/
def setNullA (a : Auction) : Auction :=
  { a with owner := Outpoint.nullOutpoint, value := 0,
           revoke := Outpoint.nullOutpoint, data := none,
           height := 0, renewal := 0, claimed := false }

/-! ## Operations.
Translated from the Op class: a type tag (0..5) plus the tag-specific
parameter list, rendered here as a sum type with one payload shape per
variant, exactly as the spec's design notes direct. -/

inductive Op where
  | setAuctionOp : Auction → Op
  | setOwnerOp : Outpoint → Nat → Op
  | setRevokeOp : Outpoint → Op
  | setDataOp : Option (List Nat) → Op
  | setRenewalOp : Nat → Op
  | setClaimedOp : Bool → Op
deriving DecidableEq, Repr

/-! ## Auction record encoding (Auction.getSize / toWriter / fromReader). -/

/-- Auction.getSize from the source. -/
def Auction.getSize (a : Auction) : Nat :=
  1 + a.name.length
  + 1 + (if a.owner.isNull then 0 else 36 + 8)
  + 1 + (if a.revoke.isNull then 0 else 36)
  + 1 + (match a.data with | some d => sizeVarlen d.length | none => 0)
  + 4 + 4 + 1

/-- Auction.toWriter from the source, as a byte-list producer. -/
def Auction.toBytes (a : Auction) : List Nat :=
  writeU8 a.name.length ++ a.name
  ++ (if a.owner.isNull then writeU8 0
      else writeU8 1 ++ a.owner.toBytes ++ writeU64 a.value)
  ++ (if a.revoke.isNull then writeU8 0 else writeU8 1 ++ a.revoke.toBytes)
  ++ (match a.data with
      | some d => writeU8 1 ++ writeVarBytes d
      | none => writeU8 0)
  ++ writeU32 a.height ++ writeU32 a.renewal
  ++ writeU8 (if a.claimed then 1 else 0)

/-- Auction.toRaw from the source. -/
def Auction.toRaw (a : Auction) : List Nat := a.toBytes

/-- Auction.fromReader from the source: starts from a fresh record (zero
nameHash) and fills in each field; a presence byte other than 1 leaves the
corresponding field at its constructor default. -/
def Auction.fromBytes (bs : List Nat) : Option (Auction × List Nat) := do
  let (len, r0) ← readU8 bs
  let (nm, r1) ← readBytesN len r0
  let (p1, r2) ← readU8 r1
  let (ov, r3) ←
    if p1 = 1 then do
      let (o, ra) ← Outpoint.fromBytes r2
      let (v, rb) ← readU64 ra
      pure ((o, v), rb)
    else pure ((Outpoint.nullOutpoint, 0), r2)
  let (p2, r4) ← readU8 r3
  let (rv, r5) ←
    if p2 = 1 then Outpoint.fromBytes r4
    else pure (Outpoint.nullOutpoint, r4)
  let (p3, r6) ← readU8 r5
  let (dt, r7) ←
    if p3 = 1 then do
      let (d, rc) ← readVarBytes r6
      pure (some d, rc)
    else pure (none, r6)
  let (hgt, r8) ← readU32 r7
  let (ren, r9) ← readU32 r8
  let (cl, r10) ← readU8 r9
  pure (⟨nm, ZERO_HASH, ov.1, ov.2, rv, dt, hgt, ren, cl = 1⟩, r10)

/-- Auction.fromRaw from the source (trailing bytes are ignored, as in the
source). -/
def Auction.fromRaw (bs : List Nat) : Option Auction :=
  (Auction.fromBytes bs).map Prod.fst

/-! ## Operation encoding (Op.getSize / toWriter / fromReader). -/

/-- Op.getSize from the source. -/
def Op.getSize : Op → Nat
  | .setAuctionOp a => 1 + a.getSize
  | .setOwnerOp o _ => 1 + 1 + (if o.isNull then 0 else 36 + 8)
  | .setRevokeOp o => 1 + 1 + (if o.isNull then 0 else 36)
  | .setDataOp d => 1 + 1 + (match d with | some bs => sizeVarlen bs.length | none => 0)
  | .setRenewalOp _ => 1 + 4
  | .setClaimedOp _ => 1 + 1

/-- Op.toWriter from the source: one type-tag byte then the tag-specific
payload. -/
def Op.toBytes : Op → List Nat
  | .setAuctionOp a => writeU8 0 ++ a.toBytes
  | .setOwnerOp o v =>
      writeU8 1 ++ (if o.isNull then writeU8 0
                    else writeU8 1 ++ o.toBytes ++ writeU64 v)
  | .setRevokeOp o =>
      writeU8 2 ++ (if o.isNull then writeU8 0 else writeU8 1 ++ o.toBytes)
  | .setDataOp d =>
      writeU8 3 ++ (match d with
                    | some bs => writeU8 1 ++ writeVarBytes bs
                    | none => writeU8 0)
  | .setRenewalOp n => writeU8 4 ++ writeU32 n
  | .setClaimedOp c => writeU8 5 ++ writeU8 (if c then 1 else 0)

/-- Op.toRaw from the source. -/
def Op.toRaw (op : Op) : List Nat := op.toBytes

/-- Op.fromReader from the source: reads the tag byte, dispatches on the
six recognized values and fails on any other tag. -/
def Op.fromBytes (bs : List Nat) : Option (Op × List Nat) := do
  let (t, r) ← readU8 bs
  if t = 0 then do
    let (a, r') ← Auction.fromBytes r
    pure (Op.setAuctionOp a, r')
  else if t = 1 then do
    let (p, r1) ← readU8 r
    if p = 1 then do
      let (o, r2) ← Outpoint.fromBytes r1
      let (v, r3) ← readU64 r2
      pure (Op.setOwnerOp o v, r3)
    else pure (Op.setOwnerOp Outpoint.nullOutpoint 0, r1)
  else if t = 2 then do
    let (p, r1) ← readU8 r
    if p = 1 then do
      let (o, r2) ← Outpoint.fromBytes r1
      pure (Op.setRevokeOp o, r2)
    else pure (Op.setRevokeOp Outpoint.nullOutpoint, r1)
  else if t = 3 then do
    let (p, r1) ← readU8 r
    if p = 1 then do
      let (d, r2) ← readVarBytes r1
      pure (Op.setDataOp (some d), r2)
    else pure (Op.setDataOp none, r1)
  else if t = 4 then do
    let (n, r1) ← readU32 r
    pure (Op.setRenewalOp n, r1)
  else if t = 5 then do
    let (b, r1) ← readU8 r
    pure (Op.setClaimedOp (b = 1), r1)
  else none

/-- Op.fromRaw from the source. -/
def Op.fromRaw (bs : List Nat) : Option Op := (Op.fromBytes bs).map Prod.fst

/-! ## The live record with its transient mutation log.
The JavaScript Auction object carries the transient ops and undo arrays
alongside the persisted fields; here they form a companion structure so
that the persisted-versus-transient boundary is explicit (spec §9). -/

structure AuctionObj where
  auction : Auction
  ops : List Op
  undo : List Op
deriving DecidableEq, Repr

/-- Auction.setAuction from the source: assign the new name; when data is
non-null, log a SET_DATA undo/redo pair; log the SET_AUCTION pair whose
undo payload is the clone taken at that point (after the name assignment,
before the reset) and whose forward payload is the live record (whose value
at the end of the call is the reset record); then null all fields and set
height and renewal. -/
def AuctionObj.setAuction (r : AuctionObj) (name : List Nat) (height : Nat) :
    AuctionObj :=
  let a1 : Auction := { r.auction with name := name }
  let undo1 := r.undo
    ++ (if a1.data.isSome then [Op.setDataOp a1.data] else [])
    ++ [Op.setAuctionOp a1]
  let a2 : Auction := { setNullA a1 with height := height, renewal := height }
  let ops1 := r.ops
    ++ (if a1.data.isSome then [Op.setDataOp none] else [])
    ++ [Op.setAuctionOp a2]
  ⟨a2, ops1, undo1⟩

/-- Auction.setOwner from the source. -/
def AuctionObj.setOwner (r : AuctionObj) (owner : Outpoint) (value : Nat) :
    AuctionObj :=
  ⟨{ r.auction with owner := owner, value := value },
   r.ops ++ [Op.setOwnerOp owner value],
   r.undo ++ [Op.setOwnerOp r.auction.owner r.auction.value]⟩

/-- Auction.setRevoke from the source. -/
def AuctionObj.setRevoke (r : AuctionObj) (revoke : Outpoint) : AuctionObj :=
  ⟨{ r.auction with revoke := revoke },
   r.ops ++ [Op.setRevokeOp revoke],
   r.undo ++ [Op.setRevokeOp r.auction.revoke]⟩

/-- Auction.setData from the source. -/
def AuctionObj.setData (r : AuctionObj) (data : Option (List Nat)) : AuctionObj :=
  ⟨{ r.auction with data := data },
   r.ops ++ [Op.setDataOp data],
   r.undo ++ [Op.setDataOp r.auction.data]⟩

/-- Auction.setRenewal from the source. -/
def AuctionObj.setRenewal (r : AuctionObj) (renewal : Nat) : AuctionObj :=
  ⟨{ r.auction with renewal := renewal },
   r.ops ++ [Op.setRenewalOp renewal],
   r.undo ++ [Op.setRenewalOp r.auction.renewal]⟩

/-- Auction.setClaimed from the source. -/
def AuctionObj.setClaimed (r : AuctionObj) (claimed : Bool) : AuctionObj :=
  ⟨{ r.auction with claimed := claimed },
   r.ops ++ [Op.setClaimedOp claimed],
   r.undo ++ [Op.setClaimedOp r.auction.claimed]⟩

/-! ## Mutator call sequences. -/

/-- One mutator invocation with its arguments. -/
inductive Call where
  | callSetAuction : List Nat → Nat → Call
  | callSetOwner : Outpoint → Nat → Call
  | callSetRevoke : Outpoint → Call
  | callSetData : Option (List Nat) → Call
  | callSetRenewal : Nat → Call
  | callSetClaimed : Bool → Call
deriving DecidableEq, Repr

/-- Dispatch one mutator call on the live record. -/
def AuctionObj.applyCall (r : AuctionObj) : Call → AuctionObj
  | .callSetAuction n h => r.setAuction n h
  | .callSetOwner o v => r.setOwner o v
  | .callSetRevoke o => r.setRevoke o
  | .callSetData d => r.setData d
  | .callSetRenewal n => r.setRenewal n
  | .callSetClaimed b => r.setClaimed b

/-- Apply a sequence of mutator calls in order. -/
def AuctionObj.applyCalls (r : AuctionObj) (cs : List Call) : AuctionObj :=
  cs.foldl AuctionObj.applyCall r

/-- The persisted-field effect of one mutator call. -/
def stepA (a : Auction) : Call → Auction
  | .callSetAuction n h => { setNullA { a with name := n } with height := h, renewal := h }
  | .callSetOwner o v => { a with owner := o, value := v }
  | .callSetRevoke o => { a with revoke := o }
  | .callSetData d => { a with data := d }
  | .callSetRenewal n => { a with renewal := n }
  | .callSetClaimed b => { a with claimed := b }

/-- The undo entries one mutator call appends. -/
def invOf (a : Auction) : Call → List Op
  | .callSetAuction n _ =>
      (if a.data.isSome then [Op.setDataOp a.data] else [])
        ++ [Op.setAuctionOp { a with name := n }]
  | .callSetOwner _ _ => [Op.setOwnerOp a.owner a.value]
  | .callSetRevoke _ => [Op.setRevokeOp a.revoke]
  | .callSetData _ => [Op.setDataOp a.data]
  | .callSetRenewal _ => [Op.setRenewalOp a.renewal]
  | .callSetClaimed _ => [Op.setClaimedOp a.claimed]

/-- The forward entries one mutator call appends. -/
def fwdOf (a : Auction) : Call → List Op
  | .callSetAuction n h =>
      (if a.data.isSome then [Op.setDataOp none] else [])
        ++ [Op.setAuctionOp (stepA a (.callSetAuction n h))]
  | .callSetOwner o v => [Op.setOwnerOp o v]
  | .callSetRevoke o => [Op.setRevokeOp o]
  | .callSetData d => [Op.setDataOp d]
  | .callSetRenewal n => [Op.setRenewalOp n]
  | .callSetClaimed b => [Op.setClaimedOp b]

/-- How many entries one mutator call appends to each log. -/
def growth (a : Auction) : Call → Nat
  | .callSetAuction _ _ => if a.data.isSome then 2 else 1
  | _ => 1

/-- The persisted-field effect of a call sequence. -/
def stepCalls (a : Auction) (cs : List Call) : Auction := cs.foldl stepA a

/-- The undo entries a call sequence generates, in push order. -/
def undoGen (a : Auction) : List Call → List Op
  | [] => []
  | c :: cs => invOf a c ++ undoGen (stepA a c) cs

/-! ## Undo replay.
Modelled from the spec: the block-disconnect driver that replays the undo
log is not part of the file under verification (it lives in the chain
database layer); per the spec, replaying a SET_AUCTION entry overwrites
every field from its snapshot (the inject method), and each other entry
writes its payload into the field(s) it names. -/

/-- Apply one logged operation to the persisted fields. -/
def applyOp (a : Auction) : Op → Auction
  | .setAuctionOp snap => snap
  | .setOwnerOp o v => { a with owner := o, value := v }
  | .setRevokeOp o => { a with revoke := o }
  | .setDataOp d => { a with data := d }
  | .setRenewalOp n => { a with renewal := n }
  | .setClaimedOp c => { a with claimed := c }

/-- Replay a list of logged operations in reverse push order (last pushed
first), as the disconnect driver does with the undo log. -/
def applyUndoRev (a : Auction) (undo : List Op) : Auction :=
  undo.foldr (fun op acc => applyOp acc op) a

/-- A call is name-preserving for a record named nm when, if it is a
setAuction call, it passes nm as the name argument. -/
def sameNameCall (nm : List Nat) : Call → Prop
  | .callSetAuction n _ => n = nm
  | _ => True

/-! ## Phase state machine.
The bidding-period, total-period and renewal-window constants come from
the chain-parameter collaborator (rules.js, outside the file under
verification); they appear here as explicit parameters B, T and W. -/

inductive AuctionState where
  | bidding
  | reveal
  | closed
deriving DecidableEq, Repr

/-- The numeric code of each state (states.BIDDING = 0, REVEAL = 1,
CLOSED = 2 in the source). -/
def AuctionState.code : AuctionState → Nat
  | .bidding => 0
  | .reveal => 1
  | .closed => 2

/-- Auction.state from the source. -/
def Auction.state (a : Auction) (B T : Nat) (h : Nat) : AuctionState :=
  if a.claimed then .closed
  else if h < a.height + B then .bidding
  else if h < a.height + T then .reveal
  else .closed

/-- Auction.isBidding from the source. -/
def Auction.isBidding (a : Auction) (B T : Nat) (h : Nat) : Bool :=
  decide (a.state B T h = .bidding)

/-- Auction.isReveal from the source. -/
def Auction.isReveal (a : Auction) (B T : Nat) (h : Nat) : Bool :=
  decide (a.state B T h = .reveal)

/-- Auction.isClosed from the source. -/
def Auction.isClosed (a : Auction) (B T : Nat) (h : Nat) : Bool :=
  decide (a.state B T h = .closed)

/-- Auction.isExpired from the source (W is the renewal window). -/
def Auction.isExpired (a : Auction) (B T W : Nat) (h : Nat) : Bool :=
  if ¬(a.isClosed B T h) then false
  else if a.renewal + W ≤ h then true
  else if a.owner.isNull && a.revoke.isNull then true
  else false

/-! ## Anti-replay locality check.
Modelled from the spec: the unspent-output view is an external collaborator
mapping an output reference to an optional entry exposing a height, where
-1 is the unconfirmed/mempool sentinel. -/

structure CoinEntry where
  height : Int
deriving DecidableEq, Repr

/-- Auction.isLocal from the source. -/
def Auction.isLocal (a : Auction) (view : Outpoint → Option CoinEntry)
    (prevout : Outpoint) : Bool :=
  match view prevout with
  | none => true
  | some entry =>
      if entry.height = -1 then true
      else decide ((a.height : Int) ≤ entry.height)

/-! ## Well-formedness of field values.
These are the machine-integer range constraints the JavaScript code assumes
(a 32-byte hash, a 32-bit index, a 64-bit value, 32-bit heights, a name of
at most 255 bytes), plus the documented record invariant that a null owner
never carries a nonzero value. -/

abbrev wfOutpoint (o : Outpoint) : Prop := o.hash.length = 32 ∧ o.index < 4294967296

abbrev wfAuction (a : Auction) : Prop :=
  a.name.length ≤ 255
  ∧ wfOutpoint a.owner
  ∧ wfOutpoint a.revoke
  ∧ a.value < 18446744073709551616
  ∧ a.height < 4294967296
  ∧ a.renewal < 4294967296
  ∧ a.data.elim 0 List.length < 18446744073709551616
  ∧ (a.owner.isNull = true → a.value = 0)

abbrev wfOp : Op → Prop
  | .setAuctionOp a => wfAuction a ∧ a.nameHash = ZERO_HASH
  | .setOwnerOp o v =>
      wfOutpoint o ∧ v < 18446744073709551616 ∧ (o.isNull = true → v = 0)
  | .setRevokeOp o => wfOutpoint o
  | .setDataOp d => d.elim 0 List.length < 18446744073709551616
  | .setRenewalOp n => n < 4294967296
  | .setClaimedOp _ => True

/-- The hash-length constraints needed for an operation payload to
serialize outpoints at their fixed 36-byte width. -/
abbrev wfOpHashes : Op → Prop
  | .setAuctionOp a => a.owner.hash.length = 32 ∧ a.revoke.hash.length = 32
  | .setOwnerOp o _ => o.hash.length = 32
  | .setRevokeOp o => o.hash.length = 32
  | _ => True

/-! ## Sample values used by the witness theorems. -/

/-- A sample non-null outpoint. -/
def sampleOutpoint : Outpoint := ⟨List.replicate 32 7, 3⟩

/-- A sample record with every optional field present. -/
def sampleAuction : Auction :=
  { name := [104, 105], nameHash := ZERO_HASH, owner := sampleOutpoint,
    value := 5000, revoke := Outpoint.nullOutpoint, data := some [1, 2, 3],
    height := 100, renewal := 120, claimed := false }

/-! ## Codec roundtrip lemmas. -/

theorem readU8_writeU8 (n : Nat) (rest : List Nat) (h : n < 256) :
    readU8 (writeU8 n ++ rest) = some (n, rest) := by
  simp [readU8, writeU8, Nat.mod_eq_of_lt h]

theorem readU16_writeU16 (n : Nat) (rest : List Nat) (h : n < 65536) :
    readU16 (writeU16 n ++ rest) = some (n, rest) := by
  simp only [writeU16, readU16, List.cons_append, List.nil_append,
    Option.some.injEq, Prod.mk.injEq, and_true]
  omega

theorem readU32_writeU32 (n : Nat) (rest : List Nat) (h : n < 4294967296) :
    readU32 (writeU32 n ++ rest) = some (n, rest) := by
  simp only [writeU32, readU32, List.cons_append, List.nil_append,
    Option.some.injEq, Prod.mk.injEq, and_true]
  omega

theorem readU64_writeU64 (n : Nat) (rest : List Nat)
    (h : n < 18446744073709551616) :
    readU64 (writeU64 n ++ rest) = some (n, rest) := by
  simp only [writeU64, readU64, List.cons_append, List.nil_append,
    Option.some.injEq, Prod.mk.injEq, and_true]
  omega

theorem readBytesN_append (bs rest : List Nat) :
    readBytesN bs.length (bs ++ rest) = some (bs, rest) := by
  simp [readBytesN, List.take_left, List.drop_left]

theorem readVarint_writeVarint (n : Nat) (rest : List Nat)
    (h : n < 18446744073709551616) :
    readVarint (writeVarint n ++ rest) = some (n, rest) := by
  unfold writeVarint
  split_ifs with h1 h2 h3
  · simp only [List.cons_append, List.nil_append, readVarint]
    rw [if_neg (by omega), if_neg (by omega), if_neg (by omega)]
  · simp only [List.cons_append, readVarint, if_true, eq_self_iff_true]
    exact readU16_writeU16 n rest (by omega)
  · simp only [List.cons_append, readVarint]
    rw [if_neg (by omega)]
    simp only [if_true, eq_self_iff_true]
    exact readU32_writeU32 n rest (by omega)
  · simp only [List.cons_append, readVarint]
    rw [if_neg (by omega), if_neg (by omega)]
    simp only [if_true, eq_self_iff_true]
    exact readU64_writeU64 n rest h

theorem readVarBytes_writeVarBytes (d rest : List Nat)
    (h : d.length < 18446744073709551616) :
    readVarBytes (writeVarBytes d ++ rest) = some (d, rest) := by
  unfold writeVarBytes readVarBytes
  rw [List.append_assoc, readVarint_writeVarint d.length (d ++ rest) h]
  simpa using readBytesN_append d rest

theorem outpointBytes_roundtrip (o : Outpoint) (rest : List Nat)
    (h : wfOutpoint o) :
    Outpoint.fromBytes (o.toBytes ++ rest) = some (o, rest) := by
  obtain ⟨h1, h2⟩ := h
  unfold Outpoint.toBytes Outpoint.fromBytes
  rw [List.append_assoc, show (32 : Nat) = o.hash.length from h1.symm,
    readBytesN_append o.hash (writeU32 o.index ++ rest)]
  simp [readU32_writeU32 o.index rest h2]

theorem outpointBytes_length (o : Outpoint) (h : o.hash.length = 32) :
    o.toBytes.length = 36 := by
  simp [Outpoint.toBytes, writeU32, h]

theorem writeVarint_length (n : Nat) : (writeVarint n).length = sizeVarint n := by
  unfold writeVarint sizeVarint
  split_ifs <;> simp [writeU16, writeU32, writeU64]

theorem writeVarBytes_length (d : List Nat) :
    (writeVarBytes d).length = sizeVarlen d.length := by
  simp [writeVarBytes, sizeVarlen, writeVarint_length]


theorem decideClaimedByte (c : Bool) : decide ((if c then (1 : Nat) else 0) = 1) = c := by
  cases c <;> simp

theorem auctionBytes_roundtrip (a : Auction) (rest : List Nat)
    (h : wfAuction a) :
    Auction.fromBytes (a.toBytes ++ rest) = some ({ a with nameHash := ZERO_HASH }, rest) := by
  obtain ⟨hn, how, hrv, hv, hh, hr, hd, hnv⟩ := h
  have E8 : ∀ r, readU8 (writeU8 a.name.length ++ r) = some (a.name.length, r) :=
    fun r => readU8_writeU8 _ r (by omega)
  have E0 : ∀ r, readU8 (writeU8 0 ++ r) = some (0, r) :=
    fun r => readU8_writeU8 0 r (by omega)
  have E1 : ∀ r, readU8 (writeU8 1 ++ r) = some (1, r) :=
    fun r => readU8_writeU8 1 r (by omega)
  have EC : ∀ r, readU8 (writeU8 (if a.claimed then 1 else 0) ++ r)
      = some ((if a.claimed then 1 else 0), r) :=
    fun r => readU8_writeU8 _ r (by split <;> omega)
  have EB : ∀ r, readBytesN a.name.length (a.name ++ r) = some (a.name, r) :=
    fun r => readBytesN_append a.name r
  have EO : ∀ r, Outpoint.fromBytes (a.owner.toBytes ++ r) = some (a.owner, r) :=
    fun r => outpointBytes_roundtrip a.owner r how
  have ER : ∀ r, Outpoint.fromBytes (a.revoke.toBytes ++ r) = some (a.revoke, r) :=
    fun r => outpointBytes_roundtrip a.revoke r hrv
  have EV : ∀ r, readU64 (writeU64 a.value ++ r) = some (a.value, r) :=
    fun r => readU64_writeU64 _ r hv
  have EH : ∀ r, readU32 (writeU32 a.height ++ r) = some (a.height, r) :=
    fun r => readU32_writeU32 _ r hh
  have EN : ∀ r, readU32 (writeU32 a.renewal ++ r) = some (a.renewal, r) :=
    fun r => readU32_writeU32 _ r hr
  unfold Auction.toBytes Auction.fromBytes
  rcases hdt : a.data with _ | d
  · by_cases hon : a.owner.isNull = true
    · have hown : a.owner = Outpoint.nullOutpoint := by
        simpa [Outpoint.isNull] using hon
      by_cases hrn : a.revoke.isNull = true
      · have hrvn : a.revoke = Outpoint.nullOutpoint := by
          simpa [Outpoint.isNull] using hrn
        simp only [List.append_assoc, bind, Option.bind, Option.pure_def, hon, hrn,
          E8, EB, E0, E1, EC, EO, ER, EV, EH, EN, eq_self_iff_true, if_true, if_false,
          zero_ne_one, ite_true, ite_false, Bool.false_eq_true, Bool.true_eq_false]
        simp [hown, hrvn, hnv hon, decideClaimedByte]
      · simp only [List.append_assoc, bind, Option.bind, Option.pure_def, hon, hrn,
          E8, EB, E0, E1, EC, EO, ER, EV, EH, EN, eq_self_iff_true, if_true, if_false,
          zero_ne_one, ite_true, ite_false, Bool.false_eq_true, Bool.true_eq_false]
        simp [hown, hnv hon, decideClaimedByte]
    · by_cases hrn : a.revoke.isNull = true
      · have hrvn : a.revoke = Outpoint.nullOutpoint := by
          simpa [Outpoint.isNull] using hrn
        simp only [List.append_assoc, bind, Option.bind, Option.pure_def, hon, hrn,
          E8, EB, E0, E1, EC, EO, ER, EV, EH, EN, eq_self_iff_true, if_true, if_false,
          zero_ne_one, ite_true, ite_false, Bool.false_eq_true, Bool.true_eq_false]
        simp [hrvn, decideClaimedByte]
      · simp only [List.append_assoc, bind, Option.bind, Option.pure_def, hon, hrn,
          E8, EB, E0, E1, EC, EO, ER, EV, EH, EN, eq_self_iff_true, if_true, if_false,
          zero_ne_one, ite_true, ite_false, Bool.false_eq_true, Bool.true_eq_false]
        simp [decideClaimedByte]
  · rw [hdt] at hd
    simp only [Option.elim] at hd
    have ED : ∀ r, readVarBytes (writeVarBytes d ++ r) = some (d, r) :=
      fun r => readVarBytes_writeVarBytes d r hd
    by_cases hon : a.owner.isNull = true
    · have hown : a.owner = Outpoint.nullOutpoint := by
        simpa [Outpoint.isNull] using hon
      by_cases hrn : a.revoke.isNull = true
      · have hrvn : a.revoke = Outpoint.nullOutpoint := by
          simpa [Outpoint.isNull] using hrn
        simp only [List.append_assoc, bind, Option.bind, Option.pure_def, hon, hrn,
          E8, EB, E0, E1, EC, EO, ER, EV, EH, EN, ED, eq_self_iff_true, if_true,
          if_false, zero_ne_one, ite_true, ite_false, Bool.false_eq_true, Bool.true_eq_false]
        simp [hown, hrvn, hnv hon, decideClaimedByte]
      · simp only [List.append_assoc, bind, Option.bind, Option.pure_def, hon, hrn,
          E8, EB, E0, E1, EC, EO, ER, EV, EH, EN, ED, eq_self_iff_true, if_true,
          if_false, zero_ne_one, ite_true, ite_false, Bool.false_eq_true, Bool.true_eq_false]
        simp [hown, hnv hon, decideClaimedByte]
    · by_cases hrn : a.revoke.isNull = true
      · have hrvn : a.revoke = Outpoint.nullOutpoint := by
          simpa [Outpoint.isNull] using hrn
        simp only [List.append_assoc, bind, Option.bind, Option.pure_def, hon, hrn,
          E8, EB, E0, E1, EC, EO, ER, EV, EH, EN, ED, eq_self_iff_true, if_true,
          if_false, zero_ne_one, ite_true, ite_false, Bool.false_eq_true, Bool.true_eq_false]
        simp [hrvn, decideClaimedByte]
      · simp only [List.append_assoc, bind, Option.bind, Option.pure_def, hon, hrn,
          E8, EB, E0, E1, EC, EO, ER, EV, EH, EN, ED, eq_self_iff_true, if_true,
          if_false, zero_ne_one, ite_true, ite_false, Bool.false_eq_true, Bool.true_eq_false]
        simp [decideClaimedByte]



theorem opBytes_roundtrip (op : Op) (rest : List Nat) (h : wfOp op) :
    Op.fromBytes (op.toBytes ++ rest) = some (op, rest) := by
  have E0 : ∀ r, readU8 (writeU8 0 ++ r) = some (0, r) :=
    fun r => readU8_writeU8 0 r (by omega)
  have E1 : ∀ r, readU8 (writeU8 1 ++ r) = some (1, r) :=
    fun r => readU8_writeU8 1 r (by omega)
  have E2 : ∀ r, readU8 (writeU8 2 ++ r) = some (2, r) :=
    fun r => readU8_writeU8 2 r (by omega)
  have E3 : ∀ r, readU8 (writeU8 3 ++ r) = some (3, r) :=
    fun r => readU8_writeU8 3 r (by omega)
  have E4 : ∀ r, readU8 (writeU8 4 ++ r) = some (4, r) :=
    fun r => readU8_writeU8 4 r (by omega)
  have E5 : ∀ r, readU8 (writeU8 5 ++ r) = some (5, r) :=
    fun r => readU8_writeU8 5 r (by omega)
  cases op with
  | setAuctionOp a =>
    obtain ⟨hwf, hz⟩ := h
    have ha : ({ a with nameHash := ZERO_HASH } : Auction) = a := by rw [← hz]
    simp only [Op.toBytes]
    unfold Op.fromBytes
    rw [List.append_assoc]
    simp [E0, auctionBytes_roundtrip a rest hwf, ha]
  | setOwnerOp o v =>
    simp only [Op.toBytes]
    unfold Op.fromBytes
    by_cases hn : o.isNull = true
    · have ho : o = Outpoint.nullOutpoint := by simpa [Outpoint.isNull] using hn
      have hv0 : v = 0 := h.2.2 hn
      rw [if_pos hn, List.append_assoc]
      simp [E1, E0, ho, hv0]
    · have EO : ∀ r, Outpoint.fromBytes (o.toBytes ++ r) = some (o, r) :=
        fun r => outpointBytes_roundtrip o r h.1
      have EV : ∀ r, readU64 (writeU64 v ++ r) = some (v, r) :=
        fun r => readU64_writeU64 v r h.2.1
      rw [if_neg hn, List.append_assoc]
      simp [E1, EO, EV, List.append_assoc]
  | setRevokeOp o =>
    simp only [Op.toBytes]
    unfold Op.fromBytes
    by_cases hn : o.isNull = true
    · rw [if_pos hn, List.append_assoc]
      have ho : o = Outpoint.nullOutpoint := by simpa [Outpoint.isNull] using hn
      simp [E2, E0, ho]
    · have EO : ∀ r, Outpoint.fromBytes (o.toBytes ++ r) = some (o, r) :=
        fun r => outpointBytes_roundtrip o r h
      rw [if_neg hn, List.append_assoc]
      simp [E2, E1, EO, List.append_assoc]
  | setDataOp d =>
    simp only [Op.toBytes]
    unfold Op.fromBytes
    cases d with
    | none =>
      rw [List.append_assoc]
      simp [E3, E0]
    | some bs =>
      have hbs : bs.length < 18446744073709551616 := h
      have ED : ∀ r, readVarBytes (writeVarBytes bs ++ r) = some (bs, r) :=
        fun r => readVarBytes_writeVarBytes bs r hbs
      rw [List.append_assoc]
      simp [E3, E1, ED, List.append_assoc]
  | setRenewalOp n =>
    have EN : ∀ r, readU32 (writeU32 n ++ r) = some (n, r) :=
      fun r => readU32_writeU32 n r h
    simp only [Op.toBytes]
    unfold Op.fromBytes
    rw [List.append_assoc]
    simp [E4, EN]
  | setClaimedOp c =>
    have EC : ∀ r, readU8 (writeU8 (if c then 1 else 0) ++ r)
        = some ((if c then 1 else 0), r) :=
      fun r => readU8_writeU8 _ r (by split <;> omega)
    simp only [Op.toBytes]
    unfold Op.fromBytes
    rw [List.append_assoc]
    simp [E5, EC, decideClaimedByte]



theorem auctionBytes_length (a : Auction)
    (h1 : a.owner.hash.length = 32) (h2 : a.revoke.hash.length = 32) :
    a.toBytes.length = a.getSize := by
  unfold Auction.toBytes Auction.getSize
  rcases hdt : a.data with _ | d <;>
    by_cases hon : a.owner.isNull = true <;>
    by_cases hrn : a.revoke.isNull = true <;>
      simp [hon, hrn, writeU8, writeU32, writeU64, Outpoint.toBytes,
        writeVarBytes_length, h1, h2, List.length_append, sizeVarlen] <;>
      omega

theorem opBytes_length (op : Op) (h : wfOpHashes op) :
    op.toBytes.length = op.getSize := by
  cases op with
  | setAuctionOp a =>
    simp [Op.toBytes, Op.getSize, writeU8,
      auctionBytes_length a h.1 h.2, Nat.add_comm]
  | setOwnerOp o v =>
    by_cases hn : o.isNull = true <;>
      simp [Op.toBytes, Op.getSize, hn, writeU8, writeU64, writeU32,
        Outpoint.toBytes, h, List.length_append]
  | setRevokeOp o =>
    by_cases hn : o.isNull = true <;>
      simp [Op.toBytes, Op.getSize, hn, writeU8, writeU32,
        Outpoint.toBytes, h, List.length_append]
  | setDataOp d =>
    cases d <;>
      simp [Op.toBytes, Op.getSize, writeU8, writeVarBytes_length,
        List.length_append, sizeVarlen] <;> omega
  | setRenewalOp n => simp [Op.toBytes, Op.getSize, writeU8, writeU32]
  | setClaimedOp c => simp [Op.toBytes, Op.getSize, writeU8]



theorem applyCall_decomp (r : AuctionObj) (c : Call) :
    r.applyCall c =
      ⟨stepA r.auction c, r.ops ++ fwdOf r.auction c, r.undo ++ invOf r.auction c⟩ := by
  cases c <;>
    simp [AuctionObj.applyCall, AuctionObj.setAuction, AuctionObj.setOwner,
      AuctionObj.setRevoke, AuctionObj.setData, AuctionObj.setRenewal,
      AuctionObj.setClaimed, stepA, fwdOf, invOf, List.append_assoc]

theorem applyCalls_auction (cs : List Call) :
    ∀ r : AuctionObj, (r.applyCalls cs).auction = stepCalls r.auction cs := by
  induction cs with
  | nil => intro r; rfl
  | cons c cs ih =>
    intro r
    show ((r.applyCall c).applyCalls cs).auction = stepCalls r.auction (c :: cs)
    rw [ih, applyCall_decomp]
    rfl

theorem applyCalls_undo (cs : List Call) :
    ∀ r : AuctionObj, (r.applyCalls cs).undo = r.undo ++ undoGen r.auction cs := by
  induction cs with
  | nil => intro r; simp [AuctionObj.applyCalls, undoGen]
  | cons c cs ih =>
    intro r
    show ((r.applyCall c).applyCalls cs).undo = r.undo ++ undoGen r.auction (c :: cs)
    rw [ih, applyCall_decomp]
    simp [undoGen, List.append_assoc]

theorem applyUndoRev_append (a : Auction) (u v : List Op) :
    applyUndoRev a (u ++ v) = applyUndoRev (applyUndoRev a v) u := by
  simp [applyUndoRev, List.foldr_append]

theorem stepA_name (a : Auction) (c : Call) (h : sameNameCall a.name c) :
    (stepA a c).name = a.name := by
  cases c <;> simp_all [stepA, sameNameCall, setNullA]

theorem undo_single (a : Auction) (c : Call) (h : sameNameCall a.name c) :
    applyUndoRev (stepA a c) (invOf a c) = a := by
  cases c with
  | callSetAuction n hgt =>
    have hn : n = a.name := h
    subst hn
    rcases hdt : a.data with _ | d <;>
      simp [stepA, invOf, hdt, applyUndoRev, applyOp, setNullA] <;> rw [← hdt]
  | callSetOwner o v => simp [stepA, invOf, applyUndoRev, applyOp]
  | callSetRevoke o => simp [stepA, invOf, applyUndoRev, applyOp]
  | callSetData d => simp [stepA, invOf, applyUndoRev, applyOp]
  | callSetRenewal n => simp [stepA, invOf, applyUndoRev, applyOp]
  | callSetClaimed b => simp [stepA, invOf, applyUndoRev, applyOp]

theorem undoGen_inverts (cs : List Call) :
    ∀ a : Auction, (∀ c ∈ cs, sameNameCall a.name c) →
      applyUndoRev (stepCalls a cs) (undoGen a cs) = a := by
  induction cs with
  | nil => intro a _; rfl
  | cons c cs ih =>
    intro a h
    have hc : sameNameCall a.name c := h c (by simp)
    have hcs : ∀ c' ∈ cs, sameNameCall (stepA a c).name c' := by
      intro c' hc'
      rw [stepA_name a c hc]
      exact h c' (by simp [hc'])
    calc applyUndoRev (stepCalls a (c :: cs)) (undoGen a (c :: cs))
        = applyUndoRev (stepCalls (stepA a c) cs)
            (invOf a c ++ undoGen (stepA a c) cs) := rfl
      _ = applyUndoRev
            (applyUndoRev (stepCalls (stepA a c) cs) (undoGen (stepA a c) cs))
            (invOf a c) := applyUndoRev_append _ _ _
      _ = applyUndoRev (stepA a c) (invOf a c) := by rw [ih (stepA a c) hcs]
      _ = a := undo_single a c hc



/-- Claim C1, counterexample: starting from a record named [1], the single
mutator call setAuction([2], 5) leaves a record that undo-replay does not
restore to the snapshot — the name field keeps the new name [2], because
the source assigns the new name before taking the undo clone. -/
theorem C1_counterexample :
    applyUndoRev
      ((AuctionObj.mk { Auction.new with name := [1] } [] []).applyCalls
        [Call.callSetAuction [2] 5]).auction
      ((AuctionObj.mk { Auction.new with name := [1] } [] []).applyCalls
        [Call.callSetAuction [2] 5]).undo
      ≠ { Auction.new with name := [1] } := by decide

/-- Claim C1 (amended): for every auction record and every finite sequence
of mutator calls in which each setAuction call passes the record's own
name (the only way the driver ever calls it, since records are keyed by
their name), replaying the accumulated undo operations in reverse order
against the mutated record restores the snapshot field-for-field. -/
theorem C1_undo_replay_restores (a0 : Auction) (calls : List Call)
    (h : ∀ c ∈ calls, sameNameCall a0.name c) :
    applyUndoRev ((AuctionObj.mk a0 [] []).applyCalls calls).auction
      ((AuctionObj.mk a0 [] []).applyCalls calls).undo = a0 := by
  rw [applyCalls_auction, applyCalls_undo]
  simpa using undoGen_inverts calls a0 h

/-- Witness for C1 at a concrete record and call sequence. -/
theorem C1_undo_replay_restores_witness :
    (∀ c ∈ [Call.callSetAuction sampleAuction.name 200,
            Call.callSetOwner sampleOutpoint 9, Call.callSetClaimed true],
        sameNameCall sampleAuction.name c) ∧
    applyUndoRev
      ((AuctionObj.mk sampleAuction [] []).applyCalls
        [Call.callSetAuction sampleAuction.name 200,
         Call.callSetOwner sampleOutpoint 9, Call.callSetClaimed true]).auction
      ((AuctionObj.mk sampleAuction [] []).applyCalls
        [Call.callSetAuction sampleAuction.name 200,
         Call.callSetOwner sampleOutpoint 9, Call.callSetClaimed true]).undo
      = sampleAuction :=
  ⟨by simp [sameNameCall], C1_undo_replay_restores sampleAuction _ (by simp [sameNameCall])⟩

/-- Claim C2, counterexample: on a record named [1], setAuction([2], 5)
logs a SET_AUCTION undo payload that is not the pre-call record — its name
field already holds the new name [2]. -/
theorem C2_counterexample :
    ((AuctionObj.mk { Auction.new with name := [1] } [] []).setAuction [2] 5).undo.getLast?
      ≠ some (Op.setAuctionOp { Auction.new with name := [1] }) := by decide

/-- Claim C2 (amended): the SET_AUCTION undo entry pushed by
setAuction(name, height) is an independent snapshot holding every pre-call
field value except name, which holds the new name argument (the source
assigns the name before cloning); and that logged entry is unchanged by
any later sequence of mutator calls on the live record. -/
theorem C2_setAuction_undo_snapshot (r : AuctionObj) (n : List Nat) (hgt : Nat) :
    (r.setAuction n hgt).undo.getLast?
      = some (Op.setAuctionOp { r.auction with name := n })
    ∧ ∀ cs : List Call,
        ((r.setAuction n hgt).applyCalls cs).undo[(r.setAuction n hgt).undo.length - 1]?
          = some (Op.setAuctionOp { r.auction with name := n }) := by
  have hlast : (r.setAuction n hgt).undo.getLast?
      = some (Op.setAuctionOp { r.auction with name := n }) := by
    simp only [AuctionObj.setAuction]
    rw [List.getLast?_concat]
  refine ⟨hlast, fun cs => ?_⟩
  have hpos : 0 < (r.setAuction n hgt).undo.length := by
    simp only [AuctionObj.setAuction]
    simp
  rw [applyCalls_undo, List.getElem?_append_left (by omega),
    ← List.getLast?_eq_getElem?, hlast]

/-- Witness for C2 at a concrete record, name and height. -/
theorem C2_setAuction_undo_snapshot_witness :
    ((AuctionObj.mk sampleAuction [] []).setAuction sampleAuction.name 7).undo.getLast?
      = some (Op.setAuctionOp { sampleAuction with name := sampleAuction.name })
    ∧ ∀ cs : List Call,
        (((AuctionObj.mk sampleAuction [] []).setAuction sampleAuction.name 7).applyCalls cs).undo[
            ((AuctionObj.mk sampleAuction [] []).setAuction sampleAuction.name 7).undo.length - 1]?
          = some (Op.setAuctionOp { sampleAuction with name := sampleAuction.name }) :=
  C2_setAuction_undo_snapshot (AuctionObj.mk sampleAuction [] []) sampleAuction.name 7

/-- The forward and inverse entry lists of one call have the same length. -/
theorem fwdOf_length (a : Auction) (c : Call) : (fwdOf a c).length = growth a c := by
  cases c <;> simp [fwdOf, growth] <;> split <;> simp

/-- The inverse entry list of one call has length equal to growth. -/
theorem invOf_length (a : Auction) (c : Call) : (invOf a c).length = growth a c := by
  cases c <;> simp [invOf, growth] <;> split <;> simp

/-- One call grows ops by exactly growth. -/
theorem applyCall_ops_length (r : AuctionObj) (c : Call) :
    (r.applyCall c).ops.length = r.ops.length + growth r.auction c := by
  rw [applyCall_decomp]
  simp [fwdOf_length]

/-- One call grows undo by exactly growth. -/
theorem applyCall_undo_length (r : AuctionObj) (c : Call) :
    (r.applyCall c).undo.length = r.undo.length + growth r.auction c := by
  rw [applyCall_decomp]
  simp [invOf_length]

/-- Call sequences preserve the ops/undo length balance. -/
theorem applyCalls_balanced (cs : List Call) :
    ∀ r : AuctionObj, r.ops.length = r.undo.length →
      (r.applyCalls cs).ops.length = (r.applyCalls cs).undo.length := by
  induction cs with
  | nil => intro r h; exact h
  | cons c cs ih =>
    intro r h
    show ((r.applyCall c).applyCalls cs).ops.length = _
    exact ih (r.applyCall c) (by rw [applyCall_ops_length, applyCall_undo_length, h])

/-- Claim C3, counterexample: on a record whose data field is non-null,
the single call setAuction appends two entries to ops, not one. -/
theorem C3_counterexample :
    ((AuctionObj.mk { Auction.new with data := some [] } [] []).applyCall
        (Call.callSetAuction [] 0)).ops.length ≠
      (AuctionObj.mk { Auction.new with data := some [] } [] []).ops.length + 1 := by
  decide

/-- Claim C3 (amended): ops.length = undo.length is preserved by every
mutator call and every call sequence, and each mutator call appends
exactly the same number of entries to ops as to undo: one entry, except
setAuction on a record with non-null data, which appends two (a SET_DATA
pair and a SET_AUCTION pair). -/
theorem C3_lockstep (r : AuctionObj) (c : Call) (cs : List Call)
    (hr : r.ops.length = r.undo.length) :
    (r.applyCall c).ops.length = r.ops.length + growth r.auction c
    ∧ (r.applyCall c).undo.length = r.undo.length + growth r.auction c
    ∧ growth r.auction c
        = (match c with
           | Call.callSetAuction _ _ => if r.auction.data.isSome then 2 else 1
           | _ => 1)
    ∧ (r.applyCalls cs).ops.length = (r.applyCalls cs).undo.length :=
  ⟨applyCall_ops_length r c, applyCall_undo_length r c,
   by cases c <;> rfl, applyCalls_balanced cs r hr⟩

/-- Witness for C3 at a concrete record, call and sequence. -/
theorem C3_lockstep_witness :
    (AuctionObj.mk sampleAuction [] []).ops.length
      = (AuctionObj.mk sampleAuction [] []).undo.length ∧
    (((AuctionObj.mk sampleAuction [] []).applyCall (Call.callSetData none)).ops.length
      = (AuctionObj.mk sampleAuction [] []).ops.length
          + growth sampleAuction (Call.callSetData none)
    ∧ ((AuctionObj.mk sampleAuction [] []).applyCall (Call.callSetData none)).undo.length
      = (AuctionObj.mk sampleAuction [] []).undo.length
          + growth sampleAuction (Call.callSetData none)
    ∧ growth sampleAuction (Call.callSetData none)
        = (match Call.callSetData none with
           | Call.callSetAuction _ _ => if sampleAuction.data.isSome then 2 else 1
           | _ => 1)
    ∧ ((AuctionObj.mk sampleAuction [] []).applyCalls
          [Call.callSetRenewal 3]).ops.length
      = ((AuctionObj.mk sampleAuction [] []).applyCalls
          [Call.callSetRenewal 3]).undo.length) :=
  ⟨rfl, C3_lockstep (AuctionObj.mk sampleAuction [] [])
    (Call.callSetData none) [Call.callSetRenewal 3] rfl⟩



/-- Claim C4: decoding the encoding of a well-formed record (name at most
255 bytes, 32-byte outpoint hashes, in-range integer fields, and the
documented invariant that a null owner carries value 0) returns a record
equal to the original on every persisted field, with nameHash at its
decoder default; the encoding never depends on nameHash, and the transient
ops/undo lists live outside the encoded record entirely. -/
theorem C4_record_roundtrip (a : Auction) (h : wfAuction a) :
    Auction.fromRaw a.toRaw = some { a with nameHash := ZERO_HASH }
    ∧ (∀ nh : List Nat, Auction.toRaw { a with nameHash := nh } = a.toRaw)
    ∧ (∀ ops undoLog : List Op,
        (AuctionObj.mk a ops undoLog).auction.toRaw = a.toRaw) := by
  refine ⟨?_, fun nh => rfl, fun ops undoLog => rfl⟩
  have hrt := auctionBytes_roundtrip a [] h
  rw [List.append_nil] at hrt
  simp [Auction.fromRaw, Auction.toRaw, hrt]

/-- Witness for C4 at a concrete record. -/
theorem C4_record_roundtrip_witness :
    wfAuction sampleAuction ∧
    (Auction.fromRaw sampleAuction.toRaw
        = some { sampleAuction with nameHash := ZERO_HASH }
    ∧ (∀ nh : List Nat,
        Auction.toRaw { sampleAuction with nameHash := nh } = sampleAuction.toRaw)
    ∧ (∀ ops undoLog : List Op,
        (AuctionObj.mk sampleAuction ops undoLog).auction.toRaw
          = sampleAuction.toRaw)) :=
  ⟨by decide, C4_record_roundtrip sampleAuction (by decide)⟩

/-- Claim C5, counterexample: a SET_OWNER operation whose outpoint is null
but whose value is 7 does not survive the roundtrip — the encoder writes
only the absence byte, so the decoder returns value 0. -/
theorem C5_counterexample :
    Op.fromRaw (Op.setOwnerOp Outpoint.nullOutpoint 7).toRaw
      ≠ some (Op.setOwnerOp Outpoint.nullOutpoint 7) := by decide

/-- Claim C5 (amended): for each of the six operation variants, decoding
the encoding returns the identical operation for every well-formed payload:
integer fields within their encoded widths, 32-byte outpoint hashes, a
SET_AUCTION payload whose nameHash is the decoder default ZERO_HASH (the
nameHash is never encoded), and a SET_OWNER payload whose value is 0
whenever its outpoint is null (otherwise the value byte section is absent
and the value decodes as 0, as the counterexample shows). -/
theorem C5_op_roundtrip (op : Op) (h : wfOp op) :
    Op.fromRaw op.toRaw = some op := by
  have hrt := opBytes_roundtrip op [] h
  rw [List.append_nil] at hrt
  simp [Op.fromRaw, Op.toRaw, hrt]

/-- Witness for C5: one present-form payload and one absent-form payload
for each optional-payload variant, plus the unconditional variants. -/
theorem C5_op_roundtrip_witness :
    (wfOp (Op.setAuctionOp { sampleAuction with nameHash := ZERO_HASH })
      ∧ wfOp (Op.setOwnerOp sampleOutpoint 5000)
      ∧ wfOp (Op.setOwnerOp Outpoint.nullOutpoint 0)
      ∧ wfOp (Op.setRevokeOp sampleOutpoint)
      ∧ wfOp (Op.setRevokeOp Outpoint.nullOutpoint)
      ∧ wfOp (Op.setDataOp (some [9, 8]))
      ∧ wfOp (Op.setDataOp none)
      ∧ wfOp (Op.setRenewalOp 77)
      ∧ wfOp (Op.setClaimedOp true)
      ∧ wfOp (Op.setClaimedOp false))
    ∧ Op.fromRaw (Op.setAuctionOp { sampleAuction with nameHash := ZERO_HASH }).toRaw
        = some (Op.setAuctionOp { sampleAuction with nameHash := ZERO_HASH })
    ∧ Op.fromRaw (Op.setOwnerOp sampleOutpoint 5000).toRaw
        = some (Op.setOwnerOp sampleOutpoint 5000)
    ∧ Op.fromRaw (Op.setOwnerOp Outpoint.nullOutpoint 0).toRaw
        = some (Op.setOwnerOp Outpoint.nullOutpoint 0)
    ∧ Op.fromRaw (Op.setRevokeOp sampleOutpoint).toRaw
        = some (Op.setRevokeOp sampleOutpoint)
    ∧ Op.fromRaw (Op.setRevokeOp Outpoint.nullOutpoint).toRaw
        = some (Op.setRevokeOp Outpoint.nullOutpoint)
    ∧ Op.fromRaw (Op.setDataOp (some [9, 8])).toRaw = some (Op.setDataOp (some [9, 8]))
    ∧ Op.fromRaw (Op.setDataOp none).toRaw = some (Op.setDataOp none)
    ∧ Op.fromRaw (Op.setRenewalOp 77).toRaw = some (Op.setRenewalOp 77)
    ∧ Op.fromRaw (Op.setClaimedOp true).toRaw = some (Op.setClaimedOp true)
    ∧ Op.fromRaw (Op.setClaimedOp false).toRaw = some (Op.setClaimedOp false) :=
  ⟨⟨by decide, by decide, by decide, by decide, by decide, by decide, by decide,
    by decide, by decide, by decide⟩,
   C5_op_roundtrip _ (by decide), C5_op_roundtrip _ (by decide),
   C5_op_roundtrip _ (by decide), C5_op_roundtrip _ (by decide),
   C5_op_roundtrip _ (by decide), C5_op_roundtrip _ (by decide),
   C5_op_roundtrip _ (by decide), C5_op_roundtrip _ (by decide),
   C5_op_roundtrip _ (by decide), C5_op_roundtrip _ (by decide)⟩



/-- Claim C6: with bidding period B and total period T (B < T), a
non-claimed record is in BIDDING before height+B, in REVEAL from height+B
up to height+T, and CLOSED from height+T on; the phase code is
non-decreasing in the query height; and claimed = true forces CLOSED at
every height. -/
theorem C6_phase_machine (a : Auction) (B T h h' : Nat) (hBT : B < T) :
    (a.claimed = false → h < a.height + B → a.state B T h = AuctionState.bidding)
    ∧ (a.claimed = false → a.height + B ≤ h → h < a.height + T →
        a.state B T h = AuctionState.reveal)
    ∧ (a.height + T ≤ h → a.state B T h = AuctionState.closed)
    ∧ (h ≤ h' → (a.state B T h).code ≤ (a.state B T h').code)
    ∧ (a.claimed = true → a.state B T h = AuctionState.closed) := by
  refine ⟨?_, ?_, ?_, ?_, ?_⟩
  · intro hc hlt
    simp [Auction.state, hc, hlt]
  · intro hc hge hlt
    have hnb : ¬ h < a.height + B := by omega
    simp [Auction.state, hc, hnb, hlt]
  · intro hge
    by_cases hc : a.claimed = true
    · simp [Auction.state, hc]
    · have h1 : ¬ h < a.height + B := by omega
      have h2 : ¬ h < a.height + T := by omega
      simp [Auction.state, hc, h1, h2]
  · intro hle
    by_cases hc : a.claimed = true
    · simp [Auction.state, hc, AuctionState.code]
    · simp only [Auction.state, hc, if_false]
      split_ifs <;> simp [AuctionState.code] <;> omega
  · intro hc
    simp [Auction.state, hc]

/-- Witness for C6 at concrete periods 5 and 15 and heights 102 and 120
on a record whose auction cycle began at height 100. -/
theorem C6_phase_machine_witness :
    (5 : Nat) < 15 ∧
    ((sampleAuction.claimed = false → 102 < sampleAuction.height + 5 →
        sampleAuction.state 5 15 102 = AuctionState.bidding)
    ∧ (sampleAuction.claimed = false → sampleAuction.height + 5 ≤ 102 →
        102 < sampleAuction.height + 15 →
        sampleAuction.state 5 15 102 = AuctionState.reveal)
    ∧ (sampleAuction.height + 15 ≤ 102 →
        sampleAuction.state 5 15 102 = AuctionState.closed)
    ∧ (102 ≤ 120 →
        (sampleAuction.state 5 15 102).code ≤ (sampleAuction.state 5 15 120).code)
    ∧ (sampleAuction.claimed = true →
        sampleAuction.state 5 15 102 = AuctionState.closed)) :=
  ⟨by decide, C6_phase_machine sampleAuction 5 15 102 120 (by decide)⟩

/-- Claim C7: isExpired is false whenever the record is not CLOSED at the
query height, and when it is CLOSED it is true exactly when the renewal
window has lapsed or both owner and revoke are null. -/
theorem C7_expiry (a : Auction) (B T W h : Nat) :
    (a.isClosed B T h = false → a.isExpired B T W h = false)
    ∧ (a.isClosed B T h = true →
        (a.isExpired B T W h = true ↔
          (a.renewal + W ≤ h ∨ (a.owner.isNull = true ∧ a.revoke.isNull = true)))) := by
  constructor
  · intro hcl
    simp [Auction.isExpired, hcl]
  · intro hcl
    simp only [Auction.isExpired, hcl]
    split_ifs with h1 h2 <;> simp_all [Bool.and_eq_true]

/-- Witness for C7 on a closed record inside its renewal window with a
non-null owner. -/
theorem C7_expiry_witness :
    (sampleAuction.isClosed 5 15 130 = false →
        sampleAuction.isExpired 5 15 1000 130 = false)
    ∧ (sampleAuction.isClosed 5 15 130 = true →
        (sampleAuction.isExpired 5 15 1000 130 = true ↔
          (sampleAuction.renewal + 1000 ≤ 130 ∨
            (sampleAuction.owner.isNull = true ∧
              sampleAuction.revoke.isNull = true)))) :=
  C7_expiry sampleAuction 5 15 1000 130

/-- Claim C8: isLocal is true when the view has no entry for the
reference or the entry carries the unconfirmed sentinel height -1, and
otherwise it is true exactly when the entry height is at least the
record's height field. -/
theorem C8_isLocal (a : Auction) (view : Outpoint → Option CoinEntry)
    (p : Outpoint) :
    (view p = none → a.isLocal view p = true)
    ∧ (∀ e : CoinEntry, view p = some e → e.height = -1 →
        a.isLocal view p = true)
    ∧ (∀ e : CoinEntry, view p = some e → e.height ≠ -1 →
        (a.isLocal view p = true ↔ (a.height : Int) ≤ e.height)) := by
  refine ⟨?_, ?_, ?_⟩
  · intro hv
    simp [Auction.isLocal, hv]
  · intro e hv he
    simp [Auction.isLocal, hv, he]
  · intro e hv he
    simp [Auction.isLocal, hv, he]

/-- Witness for C8 on a concrete view mapping every reference to an entry
at height 99. -/
theorem C8_isLocal_witness :
    ((fun _ : Outpoint => some (CoinEntry.mk 99)) sampleOutpoint = none →
        sampleAuction.isLocal (fun _ => some (CoinEntry.mk 99)) sampleOutpoint = true)
    ∧ (∀ e : CoinEntry,
        (fun _ : Outpoint => some (CoinEntry.mk 99)) sampleOutpoint = some e →
        e.height = -1 →
        sampleAuction.isLocal (fun _ => some (CoinEntry.mk 99)) sampleOutpoint = true)
    ∧ (∀ e : CoinEntry,
        (fun _ : Outpoint => some (CoinEntry.mk 99)) sampleOutpoint = some e →
        e.height ≠ -1 →
        (sampleAuction.isLocal (fun _ => some (CoinEntry.mk 99)) sampleOutpoint = true ↔
          (sampleAuction.height : Int) ≤ e.height)) :=
  C8_isLocal sampleAuction (fun _ => some (CoinEntry.mk 99)) sampleOutpoint

/-- Claim C9: decoding an operation whose leading type-tag byte is 6 or
more always fails with none — it never yields an operation value. -/
theorem C9_bad_tag (t : Nat) (rest : List Nat) (h6 : 6 ≤ t) (h256 : t < 256) :
    Op.fromBytes (t :: rest) = none ∧ Op.fromRaw (t :: rest) = none := by
  have hfb : Op.fromBytes (t :: rest) = none := by
    unfold Op.fromBytes
    simp only [readU8, bind, Option.bind]
    rw [if_neg (by omega), if_neg (by omega), if_neg (by omega),
      if_neg (by omega), if_neg (by omega), if_neg (by omega)]
  exact ⟨hfb, by simp [Op.fromRaw, hfb]⟩

/-- Witness for C9 at tag byte 6. -/
theorem C9_bad_tag_witness :
    ((6 : Nat) ≤ 6 ∧ (6 : Nat) < 256) ∧
    (Op.fromBytes (6 :: [1, 2]) = none ∧ Op.fromRaw (6 :: [1, 2]) = none) :=
  ⟨⟨by decide, by decide⟩, C9_bad_tag 6 [1, 2] (by decide) (by decide)⟩

/-- Claim C10: for a record with 36-byte-encodable outpoints and for an
operation whose payload satisfies the same hash-length constraint, the
byte length of the serialization equals the value computed by getSize. -/
theorem C10_sizes (a : Auction) (op : Op)
    (h1 : a.owner.hash.length = 32) (h2 : a.revoke.hash.length = 32)
    (hop : wfOpHashes op) :
    a.toRaw.length = a.getSize ∧ op.toRaw.length = op.getSize :=
  ⟨auctionBytes_length a h1 h2, opBytes_length op hop⟩

/-- Witness for C10 on a concrete record and a SET_AUCTION operation
carrying it. -/
theorem C10_sizes_witness :
    (sampleAuction.owner.hash.length = 32 ∧ sampleAuction.revoke.hash.length = 32
      ∧ wfOpHashes (Op.setAuctionOp sampleAuction)) ∧
    (sampleAuction.toRaw.length = sampleAuction.getSize
      ∧ (Op.setAuctionOp sampleAuction).toRaw.length
          = (Op.setAuctionOp sampleAuction).getSize) :=
  ⟨⟨by decide, by decide, by decide⟩,
   C10_sizes sampleAuction (Op.setAuctionOp sampleAuction)
     (by decide) (by decide) (by decide)⟩


end HSD
